import Mathlib

/-!
Verification of the Mem0 memory-management core of the
generative-ai-toolkit-for-sap-hana-cloud repository: a shallow embedding of
`Mem0HanaAdapter` (hana_mem0_adapter.py), `Mem0MemoryManager`
(memory_manager.py), `Mem0IngestionClassifier` (memory_classifier.py) and
`Mem0EntityExtractor` (memory_entity_extractor.py), together with theorems
about ingestion, TTL bookkeeping, entity assignment, search ranking and
error handling.

Modelling conventions:
- Python scalar values are `PBase`; a metadata / JSON value is a scalar or a
  list of scalars (`MVal`).  Nested containers never occur in the flows the
  theorems exercise and are not modelled.
- ISO-8601 timestamp strings are abstracted to epoch seconds (`PBase.time`);
  any other value fails `datetime.fromisoformat`.  Python floats are
  modelled as exact rationals.
- A Python `dict` is an association list with unique keys, insertion-ordered
  (`Md`); `Md.set` / `Md.setdefault` / `Md.merge` mirror item assignment,
  `dict.setdefault` and `dict(a); a.update(b)`.
- Exceptions are explicit: a computation that can raise returns
  `Except Unit _`.
-/

namespace Mem0

/-- Python scalar values as they occur in memory metadata and parsed JSON. -/
inductive PBase where
  | s (v : String)
  | i (v : Int)
  | f (v : Rat)
  | b (v : Bool)
  | time (t : Int)
  | null
  deriving DecidableEq, Repr

/-- A metadata / JSON field value: a scalar or a list of scalars. -/
inductive MVal where
  | base (v : PBase)
  | list (vs : List PBase)
  deriving DecidableEq, Repr

/-- Shorthand for a string-valued metadata entry. -/
def MVal.str (v : String) : MVal := .base (.s v)

/-- Shorthand for an int-valued metadata entry. -/
def MVal.int (v : Int) : MVal := .base (.i v)

/-- Shorthand for a timestamp-valued metadata entry
(a parseable ISO-8601 string, abstracted to epoch seconds). -/
def MVal.time (t : Int) : MVal := .base (.time t)

/-- Python truthiness of a value. -/
def MVal.truthy : MVal → Bool
  | .base (.s v) => v ≠ ""
  | .base (.i v) => v ≠ 0
  | .base (.f v) => v ≠ 0
  | .base (.b v) => v
  | .base (.time _) => true
  | .base .null => false
  | .list vs => vs ≠ []

/-- A Python dict with string keys: insertion-ordered association list. -/
abbrev Md := List (String × MVal)

/-- `d.get(k)` / `k in d`: first binding of `k`. -/
def Md.get? (m : Md) (k : String) : Option MVal :=
  (m.find? (fun p => p.1 = k)).map Prod.snd

/-- `k in d`. -/
def Md.hasKey (m : Md) (k : String) : Bool :=
  m.any (fun p => p.1 = k)

/-- `d[k] = v`: overwrite in place if the key exists, else append. -/
def Md.set (m : Md) (k : String) (v : MVal) : Md :=
  if m.hasKey k then m.map (fun p => if p.1 = k then (k, v) else p)
  else m ++ [(k, v)]

/-- `d.setdefault(k, v)`. -/
def Md.setdefault (m : Md) (k : String) (v : MVal) : Md :=
  if m.hasKey k then m else m ++ [(k, v)]

/-- `{**a, **b}` (also `d = dict(a); d.update(b)`): `b` wins, existing keys
keep their position, new keys are appended in `b`'s order. -/
def Md.merge (a b : Md) : Md :=
  b.foldl (fun acc p => acc.set p.1 p.2) a

/-- `d.get(k, dflt)`. -/
def Md.getD (m : Md) (k : String) (dflt : MVal) : MVal :=
  (m.get? k).getD dflt

/-- Truthiness of `Optional[int]` fields (`None` and `0` are falsy). -/
def intTruthy : Option Int → Bool
  | some v => v ≠ 0
  | Option.none => false

/-- Truthiness of `Optional[str]` fields (`None` and `""` are falsy). -/
def strTruthy : Option String → Bool
  | some v => v ≠ ""
  | Option.none => false

end Mem0

namespace Mem0

/-- A persisted LangChain `Document` (page_content + metadata). -/
structure Doc where
  page_content : String
  metadata : Md
  deriving DecidableEq, Repr

/-- One element of the list passed to `Mem0HanaAdapter.add`: the keys the
source reads from each memory item dict (`m.get(...)` / `"k" in m`).
Absent keys are `Option.none`. -/
structure MemoryItem where
  text : Option String := Option.none
  content : Option String := Option.none
  metadata : Md := []
  tags : Option MVal := Option.none
  entity_id : Option MVal := Option.none
  entity_type : Option MVal := Option.none
  ttl_seconds : Option Int := Option.none
  tier : Option String := Option.none

/-- Configuration of `Mem0HanaAdapter` relevant to `add` (constructor
fields; `hashFn` stands for `hashlib.sha256(..).hexdigest()`, an external
pure function). -/
structure AdapterConfig where
  ingestFilter : Option (String → Md → Except Unit Bool) := Option.none
  maxLength : Option Nat := Option.none
  defaultTtlSeconds : Option Int := Option.none
  shortTermTtlSeconds : Option Int := Option.none
  partitionDefaults : Md := []
  hashFn : String → String := fun _ => "h"

/-- `text = m.get("text") or m.get("content")`. -/
def effText (it : MemoryItem) : Option String :=
  if strTruthy it.text then it.text else it.content

/-- Metadata assembly for one item, up to and including the `tier` stamp
(source lines 150-170): merge call metadata under item metadata, merge
partition defaults under that, then the tags / entity overrides, `user_id`,
`timestamp`, `content_hash` setdefaults and the `tier` stamp. -/
def baseMd (cfg : AdapterConfig) (now : Int) (user_id : Option String)
    (callMd : Md) (it : MemoryItem) (text : String) : Md :=
  let mdInput := Md.merge callMd it.metadata
  let md := Md.merge cfg.partitionDefaults mdInput
  let md := match it.tags with
    | some (.list ts) => md.set "tags" (.list ts)
    | _ => md
  let md := match it.entity_id with
    | some v => md.set "entity_id" v
    | Option.none => md
  let md := match it.entity_type with
    | some v => md.set "entity_type" v
    | Option.none => md
  let md := if strTruthy user_id then md.setdefault "user_id" (.str (user_id.getD "")) else md
  let md := md.setdefault "timestamp" (.time now)
  let md := md.setdefault "content_hash" (.str (cfg.hashFn text))
  match it.tier with
  | some t => if t = "" then md else md.set "tier" (.str t)
  | Option.none => md

/-- TTL resolution (source lines 167-175): explicit `ttl_seconds`, else the
short-term default when `tier == "short"`, else the adapter default
(`0` counts as unset, Python truthiness). -/
def resolveTtl (cfg : AdapterConfig) (it : MemoryItem) : Option Int :=
  match it.ttl_seconds with
  | some v => some v
  | Option.none =>
    if it.tier = some "short" ∧ intTruthy cfg.shortTermTtlSeconds then
      cfg.shortTermTtlSeconds
    else if intTruthy cfg.defaultTtlSeconds then
      cfg.defaultTtlSeconds
    else Option.none

/-- `datetime.fromisoformat` on a metadata value: succeeds only on a valid
ISO timestamp string (abstracted as `PBase.time`). -/
def parseIso : MVal → Option Int
  | .base (.time t) => some t
  | _ => Option.none

/-- Expiry stamping (source lines 176-183): when the resolved TTL is truthy,
`expires_at = timestamp + ttl`; a `fromisoformat` failure is swallowed and
`expires_at` is omitted. -/
def withExpiry (md : Md) (now : Int) (ttl : Option Int) : Md :=
  if intTruthy ttl then
    match parseIso (md.getD "timestamp" (.time now)) with
    | some base => md.set "expires_at" (.time (base + ttl.getD 0))
    | Option.none => md
  else md

/-- The `max_length` skip test of `add` (source lines 147-149). -/
def maxLenSkip (cfg : AdapterConfig) (text : String) : Bool :=
  match cfg.maxLength with
  | some l => decide (text.length > l)
  | Option.none => false

/-- Processing of a single item of `Mem0HanaAdapter.add` (source lines
143-192). `Except.error` is the `ValueError` for an item with neither
`text` nor `content`; `Except.ok Option.none` is a silent skip
(`max_length` exceeded, or ingest filter returned false); on an ingest
filter exception the check is skipped and the item proceeds. -/
def processItem (cfg : AdapterConfig) (now : Int) (user_id : Option String)
    (callMd : Md) (it : MemoryItem) : Except Unit (Option Doc) :=
  match effText it with
  | Option.none => .error ()
  | some text =>
    if text = "" then .error ()
    else if maxLenSkip cfg text then .ok Option.none
    else
      let md := withExpiry (baseMd cfg now user_id callMd it text) now (resolveTtl cfg it)
      match cfg.ingestFilter with
      | Option.none => .ok (some ⟨text, md⟩)
      | some f =>
        match f text md with
        | .ok true => .ok (some ⟨text, md⟩)
        | .ok false => .ok Option.none
        | .error _ => .ok (some ⟨text, md⟩)

/-- The item loop of `Mem0HanaAdapter.add`: the surviving documents, or the
first `ValueError`.  An error aborts the whole call before
`vectorstore.add_documents` runs, so nothing is persisted. -/
def addDocs (cfg : AdapterConfig) (now : Int) (items : List MemoryItem)
    (user_id : Option String) (callMd : Md) : Except Unit (List Doc) :=
  match items with
  | [] => .ok []
  | it :: rest =>
    match processItem cfg now user_id callMd it with
    | .error e => .error e
    | .ok Option.none => addDocs cfg now rest user_id callMd
    | .ok (some d) => (addDocs cfg now rest user_id callMd).map (fun ds => d :: ds)

/-- The injected vector store, as consumed by `add` and `update`:
`addDocuments` returns backend ids (`Option.none` models the `TypeError`
branch, where ids become `"" * len(docs)`); `nativeUpdate` models
`hasattr(vectorstore, "update")` plus the call's outcome (`Except.error` =
the call raised). -/
structure Backend where
  addDocuments : List Doc → Option (List String) := fun ds => some (ds.map (fun _ => ""))
  nativeUpdate : Option (String → String → Md → Except Unit Bool) := Option.none

/-- `Mem0HanaAdapter.add` (source lines 134-200): returns the persisted
documents and the id list, or raises `ValueError`. -/
def adapterAdd (cfg : AdapterConfig) (be : Backend) (now : Int)
    (items : List MemoryItem) (user_id : Option String) (callMd : Md) :
    Except Unit (List Doc × List String) :=
  match addDocs cfg now items user_id callMd with
  | .error e => .error e
  | .ok docs =>
    match be.addDocuments docs with
    | some ids => .ok (docs, ids)
    | Option.none => .ok (docs, List.replicate docs.length "")

end Mem0

namespace Mem0

/-- Observable outcome of `Mem0HanaAdapter.update`: the returned boolean,
whether the emulation's `delete({"id": id})` ran (with which id), and the
documents the emulation's `add` persisted. -/
structure UpdateOutcome where
  result : Bool
  deleteCalled : Option String
  persisted : List Doc
  deriving DecidableEq, Repr

/-- `Mem0HanaAdapter.update` (source lines 306-325).  A native backend
`update` is preferred; if it is absent or raises, the call falls back to
`delete({"id": id})` (which never raises: `Mem0HanaAdapter.delete`
swallows backend errors) followed by `add([{"text": new_text,
"metadata": metadata or {}}])`, and returns `True` unless that `add`
raises. -/
def adapterUpdate (cfg : AdapterConfig) (be : Backend) (now : Int)
    (id : String) (new_text : String) (metadata : Md) : UpdateOutcome :=
  match be.nativeUpdate with
  | some f =>
    match f id new_text metadata with
    | .ok r => { result := r, deleteCalled := Option.none, persisted := [] }
    | .error _ => adapterUpdateEmulate cfg be now id new_text metadata
  | Option.none => adapterUpdateEmulate cfg be now id new_text metadata
where
  adapterUpdateEmulate (cfg : AdapterConfig) (be : Backend) (now : Int)
      (id : String) (new_text : String) (metadata : Md) : UpdateOutcome :=
    match adapterAdd cfg be now [{ text := some new_text, metadata := metadata }]
        Option.none [] with
    | .ok (docs, _) => { result := true, deleteCalled := some id, persisted := docs }
    | .error _ => { result := false, deleteCalled := some id, persisted := [] }

/-- `SearchResult` dataclass of hana_mem0_adapter.py. -/
structure SearchResult where
  text : String
  score : Rat
  metadata : Md
  rerank_score : Option Rat := Option.none
  deriving DecidableEq, Repr

/-- The injected cross-encoder: `predict(pairs)` returns one score per
pair or raises. -/
abbrev Reranker := List (String × String) → Except Unit (List Rat)

/-- Candidate-to-result conversion (source lines 236-239). -/
def toResult (p : Doc × Rat) : SearchResult :=
  { text := p.1.page_content, score := p.2, metadata := p.1.metadata }

/-- `for r, rs in zip(results, rerank_scores): r.rerank_score = float(rs)`:
only the zipped initial segment gets scores. -/
def assignRerank (results : List SearchResult) (scores : List Rat) : List SearchResult :=
  (results.zip scores).map (fun p => { p.1 with rerank_score := some p.2 })
    ++ results.drop scores.length

/-- Sort key of the rerank branch:
`(x.rerank_score if x.rerank_score is not None else 0.0, x.score)`. -/
def rrKey (x : SearchResult) : Rat × Rat :=
  (x.rerank_score.getD 0, x.score)

/-- `a` may precede `b` in a descending lexicographic sort. -/
def lexGe (a b : Rat × Rat) : Bool :=
  b.1 < a.1 ∨ (a.1 = b.1 ∧ b.2 ≤ a.2)

/-- `results.sort(key=lambda x: (rerank_or_0, score), reverse=True)`. -/
def sortRerank (rs : List SearchResult) : List SearchResult :=
  rs.mergeSort (fun a b => lexGe (rrKey a) (rrKey b))

/-- `results.sort(key=lambda x: x.score, reverse=True)`. -/
def sortByScore (rs : List SearchResult) : List SearchResult :=
  rs.mergeSort (fun a b => decide (b.score ≤ a.score))

/-- `Mem0HanaAdapter.search` from the backend's candidate list on (source
lines 236-256): build results, optionally rerank (on reranker failure the
list is left in backend order), otherwise sort by vector score, then
truncate to `top_k`. -/
def searchFromCandidates (reranker : Option Reranker) (query : String)
    (top_k : Nat) (rerank : Bool) (candidates : List (Doc × Rat)) :
    List SearchResult :=
  let results := candidates.map toResult
  let results :=
    match reranker with
    | some predict =>
      if rerank ∧ results ≠ [] then
        match predict (results.map (fun (r : SearchResult) => (query, r.text))) with
        | .ok scores => sortRerank (assignRerank results scores)
        | .error _ => results
      else sortByScore results
    | Option.none => sortByScore results
  results.take top_k

end Mem0

namespace Mem0

/-- `str(x)`.  Total (Python `str` never raises); the printed form of
floats, timestamps and lists is abstracted — no theorem depends on it. -/
def pyStr : MVal → String
  | .base (.s v) => v
  | .base (.i v) => toString v
  | .base (.f v) => toString v
  | .base (.b v) => if v then "True" else "False"
  | .base (.time t) => "iso-" ++ toString t
  | .base .null => "None"
  | .list _ => "[...]"

/-- Numeric value of a digit run. -/
def digitsVal (cs : List Char) : Nat :=
  cs.foldl (fun a c => a * 10 + (c.toNat - 48)) 0

/-- `float(s)` for a string: optional surrounding whitespace, optional
sign, decimal digits with an optional fractional part.  Exponent, `inf`
and `nan` forms are not modelled (no theorem instantiates them). -/
def pyFloatOfStr (s : String) : Except Unit Rat :=
  let cs := s.trim.data
  let sign : Rat := match cs with
    | c :: _ => if c = '-' then -1 else 1
    | [] => 1
  let cs := match cs with
    | c :: rest => if c = '-' ∨ c = '+' then rest else cs
    | [] => cs
  let intPart := cs.takeWhile Char.isDigit
  let rest := cs.dropWhile Char.isDigit
  match rest with
  | [] =>
    if intPart = [] then .error ()
    else .ok (sign * (digitsVal intPart : Rat))
  | c :: frac =>
    if c = '.' ∧ frac.all Char.isDigit ∧ (intPart ≠ [] ∨ frac ≠ []) then
      .ok (sign * ((digitsVal intPart : Rat) +
        (digitsVal frac : Rat) / ((10 : Rat) ^ frac.length)))
    else .error ()

/-- `int(s)` for a string: optional whitespace and sign, decimal digits
only (Python `int("3.5")` raises). -/
def pyIntOfStr (s : String) : Except Unit Int :=
  let cs := s.trim.data
  let sign : Int := match cs with
    | c :: _ => if c = '-' then -1 else 1
    | [] => 1
  let cs := match cs with
    | c :: rest => if c = '-' ∨ c = '+' then rest else cs
    | [] => cs
  if cs ≠ [] ∧ cs.all Char.isDigit then .ok (sign * (digitsVal cs : Int))
  else .error ()

/-- `float(x)`: numbers and booleans coerce, numeric strings parse,
everything else raises. -/
def pyFloat : MVal → Except Unit Rat
  | .base (.i v) => .ok v
  | .base (.f v) => .ok v
  | .base (.b v) => .ok (if v then 1 else 0)
  | .base (.s v) => pyFloatOfStr v
  | _ => .error ()

/-- `int(x)`: ints and booleans coerce, floats truncate toward zero,
integer-literal strings parse, everything else raises. -/
def pyInt : MVal → Except Unit Int
  | .base (.i v) => .ok v
  | .base (.f v) => .ok (if v < 0 then ⌈v⌉ else ⌊v⌋)
  | .base (.b v) => .ok (if v then 1 else 0)
  | .base (.s v) => pyIntOfStr v
  | _ => .error ()

/-- What `json.loads` produced: a JSON object (whose field values are
scalars or scalar lists in the shapes we model), or some other valid JSON
value, on which `.get` raises `AttributeError`. -/
inductive JsonTop where
  | obj (kvs : List (String × MVal))
  | nonObj

/-- Joint behaviour of the injected LLM call and content extraction in
`Mem0IngestionClassifier.classify` / `Mem0EntityExtractor.extract`
(source: memory_classifier.py lines 28-45, memory_entity_extractor.py
lines 39-53): the call raises, or the extracted `content` is not a string
(then `data = {}`), or it is a string and `json.loads` either fails
(`Option.none`) or yields `JsonTop`.  Prompt construction
(`str.replace`) cannot raise and is not modelled. -/
inductive LLMB where
  | raise
  | nonStrContent
  | strContent (parsed : Option JsonTop)

/-- The `data` value both methods compute before field extraction. -/
def jsonData : LLMB → Except Unit JsonTop
  | .raise => .error ()
  | .nonStrContent => .ok (.obj [])
  | .strContent Option.none => .error ()
  | .strContent (some j) => .ok j

/-- `data.get(k, dflt)`: raises on a non-object (`AttributeError`). -/
def JsonTop.get (d : JsonTop) (k : String) (dflt : MVal) : Except Unit MVal :=
  match d with
  | .obj kvs => .ok (Md.getD kvs k dflt)
  | .nonObj => .error ()

/-- Fields of the dict `Mem0IngestionClassifier.classify` returns. -/
structure ClassifyResult where
  category : String
  tags : List PBase
  priority : Rat
  tier : String
  ttl_seconds : Option Int
  deriving DecidableEq, Repr

/-- The fixed fallback dict of `classify` (source lines 60-67). -/
def defaultClassify : ClassifyResult :=
  { category := "ephemeral", tags := [], priority := 1/2,
    tier := "short", ttl_seconds := Option.none }

/-- The `try` body of `classify` (source lines 28-59): parse, then coerce
each field; any raise escapes to the `except` handler. -/
def classifyTry (b : LLMB) : Except Unit ClassifyResult := do
  let data ← jsonData b
  let category := pyStr (← data.get "category" (.str "ephemeral"))
  let tagsV ← data.get "tags" (.list [])
  let priority ← pyFloat (← data.get "priority" (.base (.f (1/2))))
  let tier := pyStr (← data.get "tier" (.str "short"))
  let ttlV ← data.get "ttl_seconds" (.base .null)
  let ttl ← match ttlV with
    | .base .null => pure Option.none
    | v => (pyInt v).map some
  pure { category := category,
         tags := match tagsV with | .list ts => ts | _ => [],
         priority := priority,
         tier := if tier = "short" ∨ tier = "long" then tier else "short",
         ttl_seconds := ttl }

/-- `Mem0IngestionClassifier.classify`: the `try` body with the
catch-all `except` returning the fixed default. -/
def classifyMethod (b : LLMB) : Except Unit ClassifyResult :=
  match classifyTry b with
  | .ok r => .ok r
  | .error _ => .ok defaultClassify

end Mem0

namespace Mem0

/-- Characters matched by the `[\s_]+` pattern of `slugify` (ASCII
whitespace subset; exotic whitespace is not modelled). -/
def isWsU (c : Char) : Bool :=
  c = ' ' ∨ c = '\t' ∨ c = '\n' ∨ c = '\r' ∨ c = '_'

/-- `re.sub(r"[\s_]+", "-", ·)`: each maximal whitespace/underscore run
becomes a single hyphen.  `inRun` says whether the previous character
belonged to such a run. -/
def collapseWsU : List Char → Bool → List Char
  | [], _ => []
  | c :: rest, inRun =>
    if isWsU c then
      if inRun then collapseWsU rest true
      else '-' :: collapseWsU rest true
    else c :: collapseWsU rest false

/-- Characters kept by `re.sub(r"[^a-z0-9\-]+", "", ·)`. -/
def slugKeep (c : Char) : Bool :=
  ('a' ≤ c ∧ c ≤ 'z') ∨ ('0' ≤ c ∧ c ≤ '9') ∨ c = '-'

/-- `slugify` of memory_entity_extractor.py (lines 21-26). -/
def slugify (text : String) : String :=
  let t := text.trim.toLower
  let t := String.mk ((collapseWsU t.data false).filter slugKeep)
  if t = "" then "unknown" else t

/-- Fields of the dict `Mem0EntityExtractor.extract` returns. -/
structure ExtractResult where
  entity_name : String
  entity_type : String
  entity_id : String
  deriving DecidableEq, Repr

/-- The fixed fallback dict of `extract` (source lines 59-60). -/
def defaultExtract : ExtractResult :=
  { entity_name := "unknown", entity_type := "other", entity_id := "unknown" }

/-- The `try` body of `extract` (source lines 39-58): parse, then
`name = str(..).strip() or "unknown"`, `etype = str(..)`,
`eid = str(data.get("entity_id") or slugify(name))`. -/
def extractTry (b : LLMB) : Except Unit ExtractResult := do
  let data ← jsonData b
  let name0 := (pyStr (← data.get "entity_name" (.str "unknown"))).trim
  let name := if name0 = "" then "unknown" else name0
  let etype := pyStr (← data.get "entity_type" (.str "other"))
  let eidV ← data.get "entity_id" (.base .null)
  let eid := if eidV.truthy then pyStr eidV else slugify name
  pure { entity_name := name, entity_type := etype, entity_id := eid }

/-- `Mem0EntityExtractor.extract`: the `try` body with the catch-all
`except` returning the fixed default. -/
def extractMethod (b : LLMB) : Except Unit ExtractResult :=
  match extractTry b with
  | .ok r => .ok r
  | .error _ => .ok defaultExtract

end Mem0

namespace Mem0

/-- `IngestionRules` dataclass of memory_manager.py. -/
structure IngestionRules where
  enabled : Bool := true
  min_length : Int := 1
  max_length : Option Nat := Option.none
  allow_tags : Option (List String) := Option.none
  deny_tags : Option (List String) := Option.none

/-- Elements of `metadata.get("tags", [])` as iterated by the predicate.
Non-list truthy values never occur in the modelled flows (iterating them
would raise or walk characters) and are treated as empty. -/
def tagElems : MVal → List PBase
  | .list ts => ts
  | _ => []

/-- Python `t in list_of_strings` for a tag element. -/
def pbInStrList (t : PBase) (l : List String) : Bool :=
  match t with
  | .s x => l.contains x
  | _ => false

/-- `Mem0MemoryManager._build_ingest_predicate` (source lines 147-166).
The `text is None` guard cannot fire in the modelled flows.  An empty
`deny_tags` list is falsy (no deny filtering); an empty `allow_tags` list
is not `None`, so it rejects everything. -/
def ingestPredicate (rules : IngestionRules) (text : String) (metadata : Md) : Bool :=
  if !rules.enabled then false
  else if (text.length : Int) < max 0 rules.min_length then false
  else if (match rules.max_length with
           | some l => decide (text.length > l)
           | Option.none => false) then false
  else
    let tags := tagElems (metadata.getD "tags" (.list []))
    if (match rules.deny_tags with
        | some dl => decide (dl ≠ []) && tags.any (fun t => pbInStrList t dl)
        | Option.none => false) then false
    else match rules.allow_tags with
      | some al => tags.any (fun t => pbInStrList t al)
      | Option.none => true

/-- One entry of the category routing table (`{"tier": ..,
"ttl_seconds": ..}`); an absent key is `Option.none`. -/
structure RouteEntry where
  tier : Option String := Option.none
  ttl_seconds : Option Int := Option.none

/-- `x or d` for the optional ints of the default routing table. -/
def orElseTruthy (v : Option Int) (d : Int) : Int :=
  match v with
  | some x => if x = 0 then d else x
  | Option.none => d

/-- The default `category_routing` built by the manager constructor
(source lines 113-119). -/
def defaultRouting (sttl : Option Int) : List (String × RouteEntry) :=
  [("preference", { tier := some "long" }),
   ("fact", { tier := some "long" }),
   ("task", { tier := some "short", ttl_seconds := some (orElseTruthy sttl 259200) }),
   ("session_state", { tier := some "short", ttl_seconds := some (orElseTruthy sttl 259200) }),
   ("ephemeral", { tier := some "short", ttl_seconds := some (orElseTruthy sttl 86400) })]

/-- Policy state of `Mem0MemoryManager` as `add_memory` reads it.  The
classifier and extractor collaborators are abstracted to the total
functions their `classify` / `extract` methods denote (they never raise,
see the C8 theorem).  The constructor coerces an invalid
`entity_assignment_mode` to `"merge"`; `assignEntity`'s final branch
treats any other string as `"merge"`, exactly like the source's `else`. -/
structure ManagerM where
  entity_id : Option String := Option.none
  entity_type : Option String := Option.none
  default_ttl_seconds : Option Int := Option.none
  short_term_ttl_seconds : Option Int := Option.none
  ingestion_rules : IngestionRules := {}
  auto_classification_enabled : Bool := false
  classifierFn : Option (String → ClassifyResult) := Option.none
  category_routing : List (String × RouteEntry) := []
  auto_entity_extraction_enabled : Bool := false
  extractorFn : Option (String → ExtractResult) := Option.none
  entity_assignment_mode : String := "merge"

/-- The `AdapterConfig` the manager constructor wires into its adapter
(source lines 127-139): the ingest predicate, `max_length`, both TTL
defaults and the partition defaults. -/
def managerAdapterCfg (mgr : ManagerM) (partitionDefaults : Md)
    (hashFn : String → String) : AdapterConfig :=
  { ingestFilter := some (fun t md => .ok (ingestPredicate mgr.ingestion_rules t md)),
    maxLength := mgr.ingestion_rules.max_length,
    defaultTtlSeconds := mgr.default_ttl_seconds,
    shortTermTtlSeconds := mgr.short_term_ttl_seconds,
    partitionDefaults := partitionDefaults,
    hashFn := hashFn }

/-- `if scope: md[k] = scope` for the manager's entity scope fields. -/
def setScope (md : Md) (k : String) (v : Option String) : Md :=
  match v with
  | some s => if s = "" then md else md.set k (.str s)
  | Option.none => md

/-- `md.setdefault("tags", []).append(x)`: appends to the tags list,
raising (`AttributeError`) if a non-list value sits under `"tags"`. -/
def Md.appendTag (m : Md) (x : PBase) : Except Unit Md :=
  match m.get? "tags" with
  | Option.none => .ok (m.set "tags" (.list [x]))
  | some (.list ts) => .ok (m.set "tags" (.list (ts ++ [x])))
  | some _ => .error ()

/-- The derived tag `entity:{type}:{id}`. -/
def entityTag (ex : ExtractResult) : PBase :=
  .s ("entity:" ++ ex.entity_type ++ ":" ++ ex.entity_id)

/-- The `subject_entity_*` block shared by the `manager` and `merge`
branches (source lines 195-201 and 218-224). -/
def subjectFields (md : Md) (ex : ExtractResult) : Except Unit Md :=
  let md := md.set "subject_entity_id" (.str ex.entity_id)
  let md := md.set "subject_entity_type" (.str ex.entity_type)
  let md := md.setdefault "entity_alias" (.str ex.entity_name)
  let md := md.set "subject_entity_alias" (.str ex.entity_name)
  md.appendTag (entityTag ex)

/-- Entity assignment of `Mem0MemoryManager.add_memory` (source lines
189-224), by `entity_assignment_mode`.  Note that in `extract` mode the
extractor fallback branch is only reachable when `extracted` is falsy,
i.e. when no extraction ran at all. -/
def assignEntity (mgr : ManagerM) (md : Md) (extracted : Option ExtractResult) :
    Except Unit Md :=
  if mgr.entity_assignment_mode = "manager" then
    let md := setScope md "entity_id" mgr.entity_id
    let md := setScope md "entity_type" mgr.entity_type
    match extracted with
    | some ex => subjectFields md ex
    | Option.none => .ok md
  else if mgr.entity_assignment_mode = "extract" then
    match extracted with
    | some ex =>
      .ok (((md.set "entity_id" (.str ex.entity_id)).set
        "entity_type" (.str ex.entity_type)).set "entity_alias" (.str ex.entity_name))
    | Option.none =>
      if strTruthy mgr.entity_id ∨ strTruthy mgr.entity_type then
        .ok (setScope (setScope md "entity_id" mgr.entity_id) "entity_type" mgr.entity_type)
      else .ok md
  else
    let md := setScope md "entity_id" mgr.entity_id
    let md := setScope md "entity_type" mgr.entity_type
    match extracted with
    | some ex => subjectFields md ex
    | Option.none => .ok md

/-- `cat in self.category_routing` / `self.category_routing[cat]`. -/
def lookupRoute (routing : List (String × RouteEntry)) (cat : String) :
    Option RouteEntry :=
  (routing.find? (fun p => p.1 = cat)).map Prod.snd

/-- `extracted`: run the extractor once when enabled and present
(source lines 185-187). -/
def extractedOf (mgr : ManagerM) (text : String) : Option ExtractResult :=
  if mgr.auto_entity_extraction_enabled then mgr.extractorFn.map (fun f => f text)
  else Option.none

/-- The classification step of `add_memory` (source lines 225-248):
merge classifier tags into the explicit tags (explicit first, dedup by
membership), let the routing table override the tier, take the routing
TTL only when the caller gave none, fall back to the tier-appropriate
default TTL, and record `priority` / `category`.  Returns the updated
`(metadata, final_tags, final_tier, final_ttl)`. -/
def classifyAdjust (mgr : ManagerM) (text : String) (tags : List PBase)
    (tier : String) (ttl_seconds : Option Int) (md : Md) :
    Md × List PBase × String × Option Int :=
  match (if mgr.auto_classification_enabled then mgr.classifierFn else Option.none) with
  | some cf =>
    let cls := cf text
    let finalTags := tags ++ cls.tags.filter (fun t => ¬ tags.contains t)
    let tierTtl :=
      match lookupRoute mgr.category_routing cls.category with
      | some route =>
        (match route.tier with
         | some t => t
         | Option.none => tier,
         match ttl_seconds with
         | some v => some v
         | Option.none => route.ttl_seconds)
      | Option.none => (tier, ttl_seconds)
    let finalTtl :=
      match tierTtl.2 with
      | some v => some v
      | Option.none =>
        if tierTtl.1 = "short" ∧ intTruthy mgr.short_term_ttl_seconds then
          mgr.short_term_ttl_seconds
        else if intTruthy mgr.default_ttl_seconds then
          mgr.default_ttl_seconds
        else Option.none
    ((md.set "priority" (.base (.f cls.priority))).set "category" (.str cls.category),
      finalTags, tierTtl.1, finalTtl)
  | Option.none => (md, tags, tier, ttl_seconds)

/-- The payload dict of `add_memory` (source lines 250-257), built from
the post-entity-assignment metadata. -/
def payloadOfMd (mgr : ManagerM) (text : String) (tags : List PBase)
    (tier : String) (ttl_seconds : Option Int) (md : Md) : MemoryItem :=
  let r := classifyAdjust mgr text tags tier ttl_seconds md
  { text := some text, metadata := r.1, tags := some (.list r.2.1),
    tier := some r.2.2.1, ttl_seconds := r.2.2.2 }

/-- `Mem0MemoryManager.add_memory` up to the adapter call (source lines
176-257): run the extractor, assign entity metadata, classify and
assemble the payload. -/
def addMemoryPayload (mgr : ManagerM) (text : String) (tags : List PBase)
    (tier : String) (ttl_seconds : Option Int) (extra_metadata : Md) :
    Except Unit MemoryItem :=
  (assignEntity mgr extra_metadata (extractedOf mgr text)).map
    (payloadOfMd mgr text tags tier ttl_seconds)

/-- `Mem0MemoryManager.add_memory`: assemble the payload, then
`self.adapter.add([payload])` on the constructor-wired adapter. -/
def addMemory (mgr : ManagerM) (partitionDefaults : Md)
    (hashFn : String → String) (be : Backend) (now : Int) (text : String)
    (tags : List PBase) (tier : String) (ttl_seconds : Option Int)
    (extra_metadata : Md) : Except Unit (List Doc × List String) :=
  match addMemoryPayload mgr text tags tier ttl_seconds extra_metadata with
  | .error e => .error e
  | .ok payload =>
    adapterAdd (managerAdapterCfg mgr partitionDefaults hashFn) be now [payload]
      Option.none []

end Mem0

namespace Mem0

/-! Claim-side predicates and concrete instances used by witnesses and
counterexamples. -/

/-- The ranking key named by the spec: `rerank_score` when present,
otherwise the vector similarity `score`. -/
def claimKey (r : SearchResult) : Rat :=
  match r.rerank_score with
  | some rs => rs
  | Option.none => r.score

/-- `descBy key l`: consecutive elements of `l` are in descending `key`
order. -/
def descBy (key : SearchResult → Rat) : List SearchResult → Bool
  | [] => true
  | [_] => true
  | a :: b :: rest => key b ≤ key a && descBy key (b :: rest)

/-- Stand-in hash for concrete runs (the sha256 hex digest is an uninterpreted
external pure function; no theorem depends on its value). -/
def idHash : String → String := fun s => s

/-- A reranker whose `predict` always raises. -/
def rrFail : Reranker := fun _ => .error ()

/-- A reranker preferring candidate text `"b"`. -/
def rrDemo : Reranker := fun ps => .ok (ps.map (fun p => if p.2 = "b" then 5 else 1))

/-- Backend candidates in ascending score order (as a backend could
return them). -/
def candsAsc : List (Doc × Rat) := [(⟨"a", []⟩, 1), (⟨"b", []⟩, 9)]

/-- A second ascending candidate list, for the C3 counterexample. -/
def candsAsc2 : List (Doc × Rat) := [(⟨"c", []⟩, 2), (⟨"d", []⟩, 8)]

/-- Manager for the C1 failing input: `merge` mode, extraction enabled,
extractor finding `Alice`. -/
def mgrMergeAlice : ManagerM :=
  { auto_entity_extraction_enabled := true,
    extractorFn := some (fun _ => ⟨"Alice", "person", "alice"⟩) }

/-- Manager for the C5 counterexample: classification routes `preference`
to `(long, no TTL)`, but `default_ttl_seconds = 60` is configured. -/
def mgrPrefLong : ManagerM :=
  { default_ttl_seconds := some 60,
    auto_classification_enabled := true,
    classifierFn := some (fun _ => ⟨"preference", [], 1/2, "long", Option.none⟩),
    category_routing := defaultRouting Option.none }

/-- Same manager without any default TTL (C5 witness). -/
def mgrPrefLongNoTtl : ManagerM :=
  { auto_classification_enabled := true,
    classifierFn := some (fun _ => ⟨"preference", [], 1/2, "long", Option.none⟩),
    category_routing := defaultRouting Option.none }

/-- Manager for the C6 failing input: `extract` mode, extraction enabled,
extractor finding nothing, manager scope set to `u1`/`user`. -/
def mgrExtractUnknown : ManagerM :=
  { entity_id := some "u1", entity_type := some "user",
    entity_assignment_mode := "extract",
    auto_entity_extraction_enabled := true,
    extractorFn := some (fun _ => ⟨"unknown", "other", "unknown"⟩) }

/-- Adapter whose ingest filter always raises (C7). -/
def cfgRaisingFilter : AdapterConfig :=
  { ingestFilter := some (fun _ _ => .error ()) }

/-- Adapter with `short_term_ttl_seconds = 10` (C4 witness). -/
def cfgShort10 : AdapterConfig := { shortTermTtlSeconds := some 10 }

/-- Adapter with `max_length = 3` (C10 witness). -/
def cfgMax3 : AdapterConfig := { maxLength := some 3 }

/-- The documents a single processed item contributes. -/
def odList : Option Doc → List Doc
  | some d => [d]
  | Option.none => []

end Mem0

namespace Mem0

/-! Helper lemmas about the dict model. -/

theorem md_get_set_self (m : Md) (k : String) (v : MVal) :
    (m.set k v).get? k = some v := by
  induction m with
  | nil => simp [Md.set, Md.hasKey, Md.get?]
  | cons p rest ih =>
    by_cases hpk : p.1 = k
    · simp [Md.set, Md.hasKey, Md.get?, hpk]
    · have htail : (Md.set rest k v).get? k = some v := ih
      by_cases hrk : Md.hasKey rest k
      · simp only [Md.set, Md.hasKey, List.any_cons, hpk, decide_False,
          Bool.false_or] at htail ⊢
        simp only [Md.hasKey] at hrk
        simp only [hrk, if_true] at htail ⊢
        simp [Md.get?, List.find?, hpk] at htail ⊢
        exact htail
      · simp only [Md.set, Md.hasKey, List.any_cons, hpk, decide_False,
          Bool.false_or] at htail ⊢
        simp only [Md.hasKey] at hrk
        simp only [Bool.not_eq_true] at hrk
        simp only [hrk, if_false] at htail ⊢
        simp [Md.get?, List.find?, hpk] at htail ⊢
        exact htail

theorem find_replace_ne (l : List (String × MVal)) (k k' : String) (v : MVal)
    (h : k' ≠ k) :
    (l.map (fun p => if p.1 = k then (k, v) else p)).find? (fun p => p.1 = k') =
      l.find? (fun p => p.1 = k') := by
  induction l with
  | nil => rfl
  | cons p rest ih =>
    simp only [List.map_cons]
    by_cases hpk : p.1 = k
    · have hd : (decide (((if p.1 = k then (k, v) else p) : String × MVal).1 = k')) = false := by
        simp only [hpk, if_true, decide_eq_false_iff_not]
        exact fun hc => h hc.symm
      have hd' : (decide (p.1 = k')) = false := by
        simp only [decide_eq_false_iff_not]
        exact fun hc => h (hc.symm.trans hpk)
      simp only [List.find?, hd, hd']
      exact ih
    · have hif : (if p.1 = k then (k, v) else p) = p := if_neg hpk
      rw [hif]
      by_cases hpk' : p.1 = k'
      · rw [List.find?_cons_of_pos _ (by simpa using hpk'),
          List.find?_cons_of_pos _ (by simpa using hpk')]
      · rw [List.find?_cons_of_neg _ (by simpa using hpk'),
          List.find?_cons_of_neg _ (by simpa using hpk')]
        exact ih

theorem md_get_set_ne (m : Md) (k k' : String) (v : MVal) (h : k' ≠ k) :
    (m.set k v).get? k' = m.get? k' := by
  unfold Md.set
  by_cases hk : Md.hasKey m k
  · simp only [hk, if_true, Md.get?, find_replace_ne m k k' v h]
  · simp only [hk, if_false, Md.get?, List.find?_append]
    have : List.find? (fun p => decide (p.1 = k')) [(k, v)] = Option.none := by
      simp [List.find?, Ne.symm h]
    simp [this]

theorem md_get_setdefault_ne (m : Md) (k k' : String) (v : MVal) (h : k' ≠ k) :
    (m.setdefault k v).get? k' = m.get? k' := by
  unfold Md.setdefault
  by_cases hk : Md.hasKey m k
  · simp [hk]
  · simp only [hk, if_false, Md.get?, List.find?_append]
    have : List.find? (fun p => decide (p.1 = k')) [(k, v)] = Option.none := by
      simp [List.find?, Ne.symm h]
    simp [this]

theorem md_hasKey_eq_isSome (m : Md) (k : String) :
    m.hasKey k = (m.get? k).isSome := by
  unfold Md.hasKey Md.get?
  induction m with
  | nil => rfl
  | cons p rest ih =>
    by_cases hpk : p.1 = k
    · simp [List.find?, hpk]
    · simp only [List.any_cons, List.find?]
      simp only [hpk, decide_False, Bool.false_or]
      exact ih

theorem md_hasKey_set (m : Md) (k k' : String) (v : MVal) :
    (m.set k v).hasKey k' = (m.hasKey k' || k' = k) := by
  by_cases hkk : k' = k
  · subst hkk
    rw [md_hasKey_eq_isSome, md_get_set_self]
    simp
  · rw [md_hasKey_eq_isSome, md_get_set_ne m k k' v hkk, ← md_hasKey_eq_isSome]
    simp [hkk]

theorem md_hasKey_setdefault (m : Md) (k k' : String) (v : MVal) :
    (m.setdefault k v).hasKey k' = (m.hasKey k' || k' = k) := by
  unfold Md.setdefault
  by_cases hk : Md.hasKey m k
  · by_cases hkk : k' = k
    · subst hkk; simp [hk]
    · simp [hk, hkk]
  · rw [if_neg hk]
    unfold Md.hasKey
    rw [List.any_append]
    have h1 : List.any [(k, v)] (fun p => decide (p.1 = k')) = decide (k' = k) := by
      simp [List.any_cons, eq_comm]
    rw [h1]

theorem md_hasKey_merge (a b : Md) (k : String) :
    (Md.merge a b).hasKey k = (a.hasKey k || b.hasKey k) := by
  unfold Md.merge
  induction b generalizing a with
  | nil => simp [Md.hasKey]
  | cons p rest ih =>
    simp only [List.foldl_cons]
    rw [ih, md_hasKey_set]
    have : Md.hasKey (p :: rest) k = (decide (k = p.1) || Md.hasKey rest k) := by
      simp [Md.hasKey, List.any_cons, eq_comm]
    rw [this]
    cases a.hasKey k <;> cases Md.hasKey rest k <;> simp

/-! Helper lemmas about search ordering. -/

theorem lexGe_trans (a b c : Rat × Rat) (hab : lexGe a b = true)
    (hbc : lexGe b c = true) : lexGe a c = true := by
  simp only [lexGe, decide_eq_true_eq] at *
  rcases hab with h1 | ⟨h1, h2⟩ <;> rcases hbc with h3 | ⟨h3, h4⟩
  · exact Or.inl (lt_trans h3 h1)
  · exact Or.inl (h3 ▸ h1)
  · exact Or.inl (h1 ▸ h3)
  · exact Or.inr ⟨h1.trans h3, le_trans h4 h2⟩

theorem lexGe_total (a b : Rat × Rat) : (lexGe a b || lexGe b a) = true := by
  simp only [lexGe, Bool.or_eq_true, decide_eq_true_eq]
  rcases lt_trichotomy a.1 b.1 with h | h | h
  · exact Or.inr (Or.inl h)
  · rcases le_total b.2 a.2 with h2 | h2
    · exact Or.inl (Or.inr ⟨h, h2⟩)
    · exact Or.inr (Or.inr ⟨h.symm, h2⟩)
  · exact Or.inl (Or.inl h)

theorem scoreGe_trans (a b c : SearchResult)
    (hab : decide (b.score ≤ a.score) = true)
    (hbc : decide (c.score ≤ b.score) = true) :
    decide (c.score ≤ a.score) = true :=
  decide_eq_true (le_trans (of_decide_eq_true hbc) (of_decide_eq_true hab))

theorem scoreGe_total (a b : SearchResult) :
    (decide (b.score ≤ a.score) || decide (a.score ≤ b.score)) = true := by
  rcases le_total b.score a.score with h | h
  · simp [h]
  · simp [h]

theorem sortByScore_pairwise (rs : List SearchResult) :
    (sortByScore rs).Pairwise (fun a b => b.score ≤ a.score) := by
  have h := @List.sorted_mergeSort SearchResult
    (fun a b => decide (b.score ≤ a.score)) scoreGe_trans scoreGe_total rs
  exact h.imp (fun hab => of_decide_eq_true hab)

theorem sortRerank_pairwise (rs : List SearchResult) :
    (sortRerank rs).Pairwise (fun a b => lexGe (rrKey a) (rrKey b) = true) :=
  @List.sorted_mergeSort SearchResult
    (fun a b => lexGe (rrKey a) (rrKey b))
    (fun a b c hab hbc => lexGe_trans _ _ _ hab hbc)
    (fun a b => lexGe_total _ _)
    rs

theorem mem_sortByScore {r : SearchResult} {rs : List SearchResult} :
    r ∈ sortByScore rs ↔ r ∈ rs := List.mem_mergeSort

theorem mem_sortRerank {r : SearchResult} {rs : List SearchResult} :
    r ∈ sortRerank rs ↔ r ∈ rs := List.mem_mergeSort

theorem descBy_of_pairwise (key : SearchResult → Rat) (l : List SearchResult)
    (h : l.Pairwise (fun a b => key b ≤ key a)) : descBy key l = true := by
  induction l with
  | nil => rfl
  | cons a rest ih =>
    cases rest with
    | nil => rfl
    | cons b rest2 =>
      rw [List.pairwise_cons] at h
      simp only [descBy, Bool.and_eq_true, decide_eq_true_eq]
      exact ⟨h.1 b (by simp), ih h.2⟩

theorem pairwise_take {R : SearchResult → SearchResult → Prop}
    (l : List SearchResult) (K : Nat) (h : l.Pairwise R) :
    (l.take K).Pairwise R :=
  List.Pairwise.sublist (List.take_sublist K l) h

theorem descBy_sortByScore_take (rs : List SearchResult) (K : Nat)
    (h : ∀ r ∈ rs, r.rerank_score = Option.none) :
    descBy claimKey ((sortByScore rs).take K) = true := by
  apply descBy_of_pairwise
  apply pairwise_take
  refine List.Pairwise.imp_of_mem ?_ (sortByScore_pairwise rs)
  intro a b ha hb hab
  have ha2 := h a (mem_sortByScore.mp ha)
  have hb2 := h b (mem_sortByScore.mp hb)
  simpa [claimKey, ha2, hb2] using hab

theorem descBy_sortRerank_take (rs : List SearchResult) (K : Nat)
    (h : ∀ r ∈ rs, r.rerank_score.isSome = true) :
    descBy claimKey ((sortRerank rs).take K) = true := by
  apply descBy_of_pairwise
  apply pairwise_take
  refine List.Pairwise.imp_of_mem ?_ (sortRerank_pairwise rs)
  intro a b ha hb hab
  obtain ⟨ra, hra⟩ := Option.isSome_iff_exists.mp (h a (mem_sortRerank.mp ha))
  obtain ⟨rb, hrb⟩ := Option.isSome_iff_exists.mp (h b (mem_sortRerank.mp hb))
  simp only [lexGe, rrKey, hra, hrb, Option.getD_some, decide_eq_true_eq] at hab
  simp only [claimKey, hra, hrb]
  rcases hab with h1 | ⟨h1, _⟩
  · exact le_of_lt h1
  · exact le_of_eq h1.symm

theorem assignRerank_isSome (rs : List SearchResult) (scores : List Rat)
    (hlen : rs.length ≤ scores.length) :
    ∀ r ∈ assignRerank rs scores, r.rerank_score.isSome = true := by
  intro r hr
  unfold assignRerank at hr
  rw [List.mem_append] at hr
  rcases hr with h | h
  · obtain ⟨p, _, rfl⟩ := List.mem_map.mp h
    rfl
  · rw [List.drop_eq_nil_of_le hlen] at h
    cases h

/-! Helper lemmas about the add pipeline. -/

theorem processItem_ok_some (cfg : AdapterConfig) (now : Int) (uid : Option String)
    (callMd : Md) (it : MemoryItem) (d : Doc)
    (h : processItem cfg now uid callMd it = .ok (some d)) :
    ∃ text, effText it = some text ∧ text ≠ "" ∧ d.page_content = text ∧
      d.metadata = withExpiry (baseMd cfg now uid callMd it text) now (resolveTtl cfg it) := by
  unfold processItem at h
  cases he : effText it with
  | none => rw [he] at h; cases h
  | some text =>
    rw [he] at h
    dsimp only at h
    by_cases ht : text = ""
    · rw [if_pos ht] at h; cases h
    · rw [if_neg ht] at h
      refine ⟨text, rfl, ht, ?_⟩
      split at h
      · cases h
      · split at h
        · injection h with h1
          injection h1 with h2
          exact ⟨congrArg Doc.page_content h2.symm ▸ rfl, by rw [← h2]⟩
        · split at h
          · injection h with h1
            injection h1 with h2
            exact ⟨congrArg Doc.page_content h2.symm ▸ rfl, by rw [← h2]⟩
          · cases h
          · injection h with h1
            injection h1 with h2
            exact ⟨congrArg Doc.page_content h2.symm ▸ rfl, by rw [← h2]⟩

theorem processItem_error_iff (cfg : AdapterConfig) (now : Int) (uid : Option String)
    (callMd : Md) (it : MemoryItem) :
    processItem cfg now uid callMd it = .error () ↔ strTruthy (effText it) = false := by
  unfold processItem
  cases he : effText it with
  | none => simp [strTruthy]
  | some text =>
    dsimp only
    by_cases ht : text = ""
    · subst ht; simp [strTruthy]
    · rw [if_neg ht]
      constructor
      · intro hcontra
        exfalso
        split at hcontra
        · cases hcontra
        · split at hcontra
          · cases hcontra
          · split at hcontra
            · cases hcontra
            · cases hcontra
            · cases hcontra
      · intro hcontra
        exfalso
        have : text = "" := by simpa [strTruthy] using hcontra
        exact ht this

theorem addDocs_singleton (cfg : AdapterConfig) (now : Int) (it : MemoryItem)
    (uid : Option String) (callMd : Md) (docs : List Doc)
    (h : addDocs cfg now [it] uid callMd = .ok docs) :
    ∀ d ∈ docs, processItem cfg now uid callMd it = .ok (some d) := by
  intro d hd
  unfold addDocs at h
  cases hp : processItem cfg now uid callMd it with
  | error e => rw [hp] at h; cases h
  | ok od =>
    rw [hp] at h
    cases od with
    | none =>
      simp only [addDocs] at h
      injection h with h1
      subst h1
      cases hd
    | some d0 =>
      simp only [addDocs, Except.map] at h
      injection h with h1
      subst h1
      rcases List.mem_singleton.mp hd with rfl
      rfl

theorem adapterAdd_ok_docs (cfg : AdapterConfig) (be : Backend) (now : Int)
    (items : List MemoryItem) (uid : Option String) (callMd : Md)
    (docs : List Doc) (ids : List String)
    (h : adapterAdd cfg be now items uid callMd = .ok (docs, ids)) :
    addDocs cfg now items uid callMd = .ok docs := by
  unfold adapterAdd at h
  cases hd : addDocs cfg now items uid callMd with
  | error e =>
    rw [hd] at h
    dsimp only at h
    cases h
  | ok ds =>
    rw [hd] at h
    dsimp only at h
    cases hb : be.addDocuments ds with
    | some ids2 =>
      rw [hb] at h
      dsimp only at h
      injection h with h1
      rw [(Prod.mk.injEq _ _ _ _).mp h1 |>.1]
    | none =>
      rw [hb] at h
      dsimp only at h
      injection h with h1
      rw [(Prod.mk.injEq _ _ _ _).mp h1 |>.1]

theorem addDocs_error_of_bad (cfg : AdapterConfig) (now : Int)
    (items : List MemoryItem) (uid : Option String) (callMd : Md)
    (h : ∃ it ∈ items, strTruthy (effText it) = false) :
    addDocs cfg now items uid callMd = .error () := by
  induction items with
  | nil => simp at h
  | cons it rest ih =>
    obtain ⟨it0, hmem, hbad⟩ := h
    rcases List.mem_cons.mp hmem with rfl | hmem2
    · have hp := (processItem_error_iff cfg now uid callMd it0).mpr hbad
      unfold addDocs
      rw [hp]
    · unfold addDocs
      cases hp : processItem cfg now uid callMd it with
      | error e => cases e; rfl
      | ok od =>
        have hrec := ih ⟨it0, hmem2, hbad⟩
        cases od with
        | none => exact hrec
        | some d0 => rw [hrec]; rfl

theorem processItem_ok_of_truthy (cfg : AdapterConfig) (now : Int)
    (uid : Option String) (callMd : Md) (it : MemoryItem)
    (h : strTruthy (effText it) = true) :
    ∃ od, processItem cfg now uid callMd it = .ok od := by
  cases hp : processItem cfg now uid callMd it with
  | error e =>
    cases e
    rw [processItem_error_iff] at hp
    rw [h] at hp
    cases hp
  | ok od => exact ⟨od, rfl⟩

/-! Helper lemmas about metadata-key preservation in the manager flow. -/

theorem appendTag_hasKey (m m2 : Md) (x : PBase) (k : String)
    (h : Md.appendTag m x = .ok m2) (hk : k ≠ "tags") :
    m2.hasKey k = m.hasKey k := by
  unfold Md.appendTag at h
  split at h
  · injection h with h1; subst h1; simp [md_hasKey_set, hk]
  · injection h with h1; subst h1; simp [md_hasKey_set, hk]
  · cases h

theorem setScope_hasKey (md : Md) (k0 k : String) (v : Option String)
    (hk : k ≠ k0) : (setScope md k0 v).hasKey k = md.hasKey k := by
  unfold setScope
  split
  · split
    · rfl
    · simp [md_hasKey_set, hk]
  · rfl

theorem subjectFields_hasKey (md md2 : Md) (ex : ExtractResult) (k : String)
    (h : subjectFields md ex = .ok md2)
    (h1 : k ≠ "subject_entity_id") (h2 : k ≠ "subject_entity_type")
    (h3 : k ≠ "entity_alias") (h4 : k ≠ "subject_entity_alias")
    (h5 : k ≠ "tags") :
    md2.hasKey k = md.hasKey k := by
  unfold subjectFields at h
  rw [appendTag_hasKey _ _ _ _ h h5]
  simp [md_hasKey_set, md_hasKey_setdefault, h1, h2, h3, h4]

theorem assignEntity_hasKey (mgr : ManagerM) (md md2 : Md)
    (ex : Option ExtractResult) (k : String)
    (h : assignEntity mgr md ex = .ok md2)
    (h1 : k ≠ "entity_id") (h2 : k ≠ "entity_type") (h3 : k ≠ "entity_alias")
    (h4 : k ≠ "subject_entity_id") (h5 : k ≠ "subject_entity_type")
    (h6 : k ≠ "subject_entity_alias") (h7 : k ≠ "tags") :
    md2.hasKey k = md.hasKey k := by
  unfold assignEntity at h
  cases ex with
  | some e =>
    dsimp only at h
    split at h
    · rw [subjectFields_hasKey _ _ _ _ h h4 h5 h3 h6 h7]
      rw [setScope_hasKey _ _ _ _ h2, setScope_hasKey _ _ _ _ h1]
    · split at h
      · injection h with hh; subst hh
        simp [md_hasKey_set, h1, h2, h3]
      · rw [subjectFields_hasKey _ _ _ _ h h4 h5 h3 h6 h7]
        rw [setScope_hasKey _ _ _ _ h2, setScope_hasKey _ _ _ _ h1]
  | none =>
    dsimp only at h
    split at h
    · injection h with hh; subst hh
      rw [setScope_hasKey _ _ _ _ h2, setScope_hasKey _ _ _ _ h1]
    · split at h
      · split at h
        · injection h with hh; subst hh
          rw [setScope_hasKey _ _ _ _ h2, setScope_hasKey _ _ _ _ h1]
        · injection h with hh; subst hh; rfl
      · injection h with hh; subst hh
        rw [setScope_hasKey _ _ _ _ h2, setScope_hasKey _ _ _ _ h1]

theorem baseMd_hasKey_of_ne (cfg : AdapterConfig) (now : Int)
    (uid : Option String) (callMd : Md) (it : MemoryItem) (text : String)
    (k : String)
    (h1 : k ≠ "tags") (h2 : k ≠ "entity_id") (h3 : k ≠ "entity_type")
    (h4 : k ≠ "user_id") (h5 : k ≠ "timestamp") (h6 : k ≠ "content_hash")
    (h7 : k ≠ "tier") :
    (baseMd cfg now uid callMd it text).hasKey k =
      ((cfg.partitionDefaults.hasKey k || callMd.hasKey k) ||
        it.metadata.hasKey k) := by
  simp only [baseMd]
  repeat' split
  all_goals
    simp [md_hasKey_set, md_hasKey_setdefault, md_hasKey_merge,
      h1, h2, h3, h4, h5, h6, h7, Bool.or_assoc]

/-! Further shared helpers for the claim theorems. -/

theorem processItem_none_filter (cfg : AdapterConfig) (now : Int)
    (uid : Option String) (callMd : Md) (it : MemoryItem) (text : String)
    (f : String → Md → Except Unit Bool)
    (heff : effText it = some text) (ht : text ≠ "")
    (hf : cfg.ingestFilter = some f) (hff : ∀ md, f text md = .ok false) :
    processItem cfg now uid callMd it = .ok Option.none := by
  unfold processItem
  rw [heff]
  dsimp only
  rw [if_neg ht]
  split
  · rfl
  · rw [hf]
    dsimp only
    rw [hff _]

theorem processItem_none_maxlen (cfg : AdapterConfig) (now : Int)
    (uid : Option String) (callMd : Md) (it : MemoryItem) (text : String)
    (l : Nat) (heff : effText it = some text) (ht : text ≠ "")
    (hml : cfg.maxLength = some l) (hlen : text.length > l) :
    processItem cfg now uid callMd it = .ok Option.none := by
  unfold processItem
  rw [heff]
  dsimp only
  rw [if_neg ht]
  have hm : maxLenSkip cfg text = true := by simp [maxLenSkip, hml, hlen]
  rw [hm]
  rfl

theorem addDocs_singleton_of (cfg : AdapterConfig) (now : Int)
    (it : MemoryItem) (uid : Option String) (callMd : Md)
    (od : Option Doc) (h : processItem cfg now uid callMd it = .ok od) :
    addDocs cfg now [it] uid callMd = .ok (odList od) := by
  unfold addDocs
  rw [h]
  cases od <;> rfl


theorem adapterAdd_singleton_docs (cfg : AdapterConfig) (be : Backend)
    (now : Int) (it : MemoryItem) (uid : Option String) (callMd : Md)
    (od : Option Doc) (h : processItem cfg now uid callMd it = .ok od) :
    ∃ ids, adapterAdd cfg be now [it] uid callMd = .ok (odList od, ids) := by
  unfold adapterAdd
  rw [addDocs_singleton_of cfg now it uid callMd od h]
  dsimp only
  cases be.addDocuments _ with
  | some ids => exact ⟨ids, rfl⟩
  | none => exact ⟨_, rfl⟩

end Mem0

namespace Mem0

/-! The claim theorems. -/

/-- C1: in `merge` (or `manager`) mode with extraction enabled and run,
the spec says the derived `entity:{type}:{id}` tag is stored with the
record.  Evaluating the code at the failing input: the manager appends
the tag to the tags list inside the metadata dict it hands to the
adapter (second conjunct), but `Mem0HanaAdapter.add` then overwrites
`md["tags"]` with the payload's top-level tags list, so the persisted
record's tags are `[]` and the derived tag is gone (first conjunct). -/
theorem C1_entity_tag_not_persisted :
    (addMemory mgrMergeAlice [] idHash {} 100 "Met Alice today" [] "long"
        Option.none []).map (fun r => r.1.map (fun d => d.metadata.get? "tags"))
      = .ok [some (.list [])]
    ∧ (addMemoryPayload mgrMergeAlice "Met Alice today" [] "long"
        Option.none []).map (fun p => p.metadata.get? "tags")
      = .ok (some (.list [.s "entity:person:alice"])) := by
  exact ⟨rfl, rfl⟩

/-- C6: in `extract` mode with extraction enabled, when the extractor
returns the no-entity default (`unknown`/`other`/`unknown`) and the
manager's scope is `(u1, user)`, the code persists `entity_id =
"unknown"` and `entity_type = "other"`: the `elif` fallback to the
manager scope is dead whenever extraction ran, because `extract` always
returns a non-empty (truthy) dict — contradicting the source's own
comment "fallback to manager settings if extractor returns unknown". -/
theorem C6_extract_mode_ignores_manager_scope :
    (addMemory mgrExtractUnknown [] idHash {} 100 "hello there" [] "long"
        Option.none []).map (fun r => r.1.map (fun d =>
          (d.metadata.get? "entity_id", d.metadata.get? "entity_type")))
      = .ok [(some (.str "unknown"), some (.str "other"))] := by
  exact rfl

/-- C5 counterexample: with `default_ttl_seconds = 60` configured and
auto-classification routing `preference` to `(long, no TTL)`, the caller
giving no TTL, the persisted record still carries `expires_at`
(timestamp 100 + 60), because `add_memory` falls back to
`default_ttl_seconds` for long-tier records. -/
theorem C5_counterexample :
    (addMemory mgrPrefLong [] idHash {} 100 "I like apples" [] "long"
        Option.none []).map (fun r => r.1.map (fun d => d.metadata.get? "expires_at"))
      = .ok [some (.time 160)] := by
  exact rfl

/-- C7 counterexample: with an ingest filter that raises, the item is
persisted (one document, one id) rather than skipped: the source logs
"ingest_filter error, skipping check" and falls through to
`docs.append`. -/
theorem C7_counterexample :
    (adapterAdd cfgRaisingFilter {} 0 [{ text := some "hello" }]
        Option.none []).map (fun r => (r.1.length, r.2.length))
      = .ok (1, 1) := by
  exact rfl

/-- C8: for every behaviour of the injected LLM (raising, non-string
content, non-JSON text, non-object JSON, or a shape whose field
coercions fail), `classify` and `extract` return `.ok` (never raise),
and on any failure of their `try` bodies they return exactly the
documented default dicts. -/
theorem C8_classifier_extractor_never_raise (b : LLMB) :
    (∃ r, classifyMethod b = .ok r) ∧ (∃ r, extractMethod b = .ok r)
    ∧ ((classifyTry b).isOk = false → classifyMethod b = .ok defaultClassify)
    ∧ ((extractTry b).isOk = false → extractMethod b = .ok defaultExtract)
    ∧ ((b = .raise ∨ b = .strContent Option.none ∨ b = .strContent (some .nonObj)) →
        classifyMethod b = .ok defaultClassify ∧ extractMethod b = .ok defaultExtract) := by
  refine ⟨?_, ?_, ?_, ?_, ?_⟩
  · unfold classifyMethod
    cases classifyTry b with
    | ok r => exact ⟨r, rfl⟩
    | error e => exact ⟨defaultClassify, rfl⟩
  · unfold extractMethod
    cases extractTry b with
    | ok r => exact ⟨r, rfl⟩
    | error e => exact ⟨defaultExtract, rfl⟩
  · intro hf
    unfold classifyMethod
    cases hc : classifyTry b with
    | ok r => rw [hc] at hf; cases hf
    | error e => rfl
  · intro hf
    unfold extractMethod
    cases hc : extractTry b with
    | ok r => rw [hc] at hf; cases hf
    | error e => rfl
  · rintro (rfl | rfl | rfl)
    · exact ⟨rfl, rfl⟩
    · exact ⟨rfl, rfl⟩
    · exact ⟨rfl, rfl⟩

/-- C8 witness: the "not json" behaviour (a string content that fails
`json.loads`) yields exactly the documented defaults. -/
theorem C8_classifier_extractor_never_raise_witness :
    classifyMethod (.strContent Option.none) = .ok defaultClassify ∧
      extractMethod (.strContent Option.none) = .ok defaultExtract :=
  (C8_classifier_extractor_never_raise (.strContent Option.none)).2.2.2.2
    (Or.inr (Or.inl rfl))

/-- C9: a batch containing any item whose `text`/`content` are both
missing or empty makes `add` raise `ValueError` during the item loop,
before `vectorstore.add_documents` runs, so nothing from the batch —
including valid earlier items — is persisted and no ids are returned. -/
theorem C9_invalid_item_aborts_batch (cfg : AdapterConfig) (be : Backend)
    (now : Int) (items : List MemoryItem) (uid : Option String) (callMd : Md)
    (h : ∃ it ∈ items, strTruthy (effText it) = false) :
    adapterAdd cfg be now items uid callMd = .error () := by
  unfold adapterAdd
  rw [addDocs_error_of_bad cfg now items uid callMd h]

/-- C9 witness: a valid item followed by an empty-text item: the whole
batch raises. -/
theorem C9_invalid_item_aborts_batch_witness :
    adapterAdd {} {} 0 [{ text := some "good item" }, { text := some "" }]
      Option.none [] = .error () :=
  C9_invalid_item_aborts_batch {} {} 0
    [{ text := some "good item" }, { text := some "" }] Option.none []
    ⟨{ text := some "" }, by simp, rfl⟩

/-- C7 amended: the ingest filter is applied last; a false return skips
the item, but a raising filter is logged with "skipping check" and the
item is persisted exactly as if the filter had passed. -/
theorem C7_filter_error_persists_item (cfg : AdapterConfig) (now : Int)
    (uid : Option String) (callMd : Md) (it : MemoryItem) (text : String)
    (f : String → Md → Except Unit Bool)
    (heff : effText it = some text) (ht : text ≠ "")
    (hf : cfg.ingestFilter = some f) (hml : maxLenSkip cfg text = false) :
    (f text (withExpiry (baseMd cfg now uid callMd it text) now (resolveTtl cfg it)) = .error () →
      processItem cfg now uid callMd it = .ok (some
        ⟨text, withExpiry (baseMd cfg now uid callMd it text) now (resolveTtl cfg it)⟩))
    ∧ (f text (withExpiry (baseMd cfg now uid callMd it text) now (resolveTtl cfg it)) = .ok false →
      processItem cfg now uid callMd it = .ok Option.none) := by
  constructor <;>
  · intro hres
    unfold processItem
    rw [heff]
    dsimp only
    rw [if_neg ht, if_neg (by rw [hml]; exact Bool.false_ne_true)]
    rw [hf]
    dsimp only
    rw [hres]

/-- C7 witness: with the always-raising filter, an item is persisted
with its assembled metadata. -/
theorem C7_filter_error_persists_item_witness :
    processItem cfgRaisingFilter 0 Option.none [] { text := some "hello" } =
      .ok (some ⟨"hello", withExpiry (baseMd cfgRaisingFilter 0 Option.none []
        { text := some "hello" } "hello") 0
        (resolveTtl cfgRaisingFilter { text := some "hello" })⟩) :=
  (C7_filter_error_persists_item cfgRaisingFilter 0 Option.none []
    { text := some "hello" } "hello" (fun _ _ => .error ())
    rfl (by decide) rfl rfl).1 rfl

/-- C10: on a backend without a native `update`, `update` deletes by id
and re-adds; it returns `True` whenever the embedded `add` does not
raise (any non-empty replacement text), even when the replacement is
silently dropped by the `max_length` check or the ingest filter — so
`True` does not imply the new text was persisted, while the old record
was already deleted. -/
theorem C10_update_true_despite_skip (cfg : AdapterConfig) (be : Backend)
    (now : Int) (id new_text : String) (metadata : Md)
    (hnat : be.nativeUpdate = Option.none) (htext : new_text ≠ "") :
    (adapterUpdate cfg be now id new_text metadata).result = true
    ∧ (adapterUpdate cfg be now id new_text metadata).deleteCalled = some id
    ∧ (∀ l, cfg.maxLength = some l → new_text.length > l →
        (adapterUpdate cfg be now id new_text metadata).persisted = [])
    ∧ (∀ f, cfg.ingestFilter = some f → (∀ md, f new_text md = .ok false) →
        (adapterUpdate cfg be now id new_text metadata).persisted = []) := by
  have heff : effText { text := some new_text, metadata := metadata } = some new_text := by
    simp [effText, strTruthy, htext]
  have het : strTruthy (effText { text := some new_text, metadata := metadata }) = true := by
    rw [heff]; simp [strTruthy, htext]
  obtain ⟨od, hod⟩ := processItem_ok_of_truthy cfg now Option.none []
    { text := some new_text, metadata := metadata } het
  obtain ⟨ids, hadd⟩ := adapterAdd_singleton_docs cfg be now
    { text := some new_text, metadata := metadata } Option.none [] od hod
  have hupd : adapterUpdate cfg be now id new_text metadata =
      { result := true, deleteCalled := some id, persisted := odList od } := by
    unfold adapterUpdate
    rw [hnat]
    dsimp only
    unfold adapterUpdate.adapterUpdateEmulate
    rw [hadd]
  refine ⟨by rw [hupd], by rw [hupd], ?_, ?_⟩
  · intro l hml hlen
    have hnone := processItem_none_maxlen cfg now Option.none []
      { text := some new_text, metadata := metadata } new_text l heff htext hml hlen
    have hodn : od = Option.none := by
      rw [hod] at hnone; injection hnone
    rw [hupd, hodn]
    rfl
  · intro f hfil hff
    have hnone := processItem_none_filter cfg now Option.none []
      { text := some new_text, metadata := metadata } new_text f heff htext hfil hff
    have hodn : od = Option.none := by
      rw [hod] at hnone; injection hnone
    rw [hupd, hodn]
    rfl

/-- C10 witness: `max_length = 3`, replacement text `"updated"`: the
update reports success and the delete ran, yet nothing was persisted. -/
theorem C10_update_true_despite_skip_witness :
    (adapterUpdate cfgMax3 {} 0 "id7" "updated" []).result = true
    ∧ (adapterUpdate cfgMax3 {} 0 "id7" "updated" []).deleteCalled = some "id7"
    ∧ (adapterUpdate cfgMax3 {} 0 "id7" "updated" []).persisted = [] := by
  have h := C10_update_true_despite_skip cfgMax3 {} 0 "id7" "updated" [] rfl (by decide)
  exact ⟨h.1, h.2.1, h.2.2.1 3 rfl (by decide)⟩

/-- C4: an item with `tier="short"`, no explicit `ttl_seconds`, and a
configured (truthy) `short_term_ttl_seconds = s`: every document
persisted for it carries `expires_at` equal to its stored `timestamp`
plus exactly `s` seconds (whenever that timestamp is a parseable ISO
instant, which is automatic when it was stamped at ingestion time). -/
theorem C4_short_tier_ttl_expiry (cfg : AdapterConfig) (be : Backend)
    (now : Int) (uid : Option String) (callMd : Md) (it : MemoryItem)
    (s bt : Int) (text : String)
    (hS : cfg.shortTermTtlSeconds = some s) (hS0 : s ≠ 0)
    (hTier : it.tier = some "short") (hTtl : it.ttl_seconds = Option.none)
    (heff : effText it = some text)
    (hTs : (baseMd cfg now uid callMd it text).get? "timestamp" = some (.time bt)) :
    ∀ docs ids, adapterAdd cfg be now [it] uid callMd = .ok (docs, ids) →
      ∀ d ∈ docs, d.metadata.get? "expires_at" = some (.time (bt + s)) := by
  intro docs ids hadd d hd
  have h1 := addDocs_singleton cfg now it uid callMd docs
    (adapterAdd_ok_docs cfg be now [it] uid callMd docs ids hadd) d hd
  obtain ⟨t2, heff2, hne2, hpc2, hmd2⟩ := processItem_ok_some cfg now uid callMd it d h1
  rw [heff] at heff2
  injection heff2 with htx
  subst htx
  have hr : resolveTtl cfg it = some s := by
    unfold resolveTtl
    rw [hTtl]
    dsimp only
    rw [if_pos (by rw [hTier, hS]; exact ⟨rfl, by simp [intTruthy, hS0]⟩)]
    exact hS
  rw [hmd2, hr]
  unfold withExpiry
  rw [if_pos (by simp [intTruthy, hS0])]
  unfold Md.getD
  rw [hTs]
  dsimp only [Option.getD, parseIso, MVal.time]
  rw [md_get_set_self]

/-- C4 witness: `short_term_ttl_seconds = 10`, a short-tier note added
at time 100 is stored with `expires_at = 110`. -/
theorem C4_short_tier_ttl_expiry_witness :
    (Doc.mk "note" [("timestamp", MVal.time 100), ("content_hash", MVal.str "h"),
      ("tier", MVal.str "short"), ("expires_at", MVal.time 110)]).metadata.get?
        "expires_at" = some (.time 110) :=
  C4_short_tier_ttl_expiry cfgShort10 {} 100 Option.none []
    { text := some "note", tier := some "short" } 10 100 "note"
    rfl (by decide) rfl rfl rfl rfl
    [Doc.mk "note" [("timestamp", MVal.time 100), ("content_hash", MVal.str "h"),
      ("tier", MVal.str "short"), ("expires_at", MVal.time 110)]] [""] rfl
    (Doc.mk "note" [("timestamp", MVal.time 100), ("content_hash", MVal.str "h"),
      ("tier", MVal.str "short"), ("expires_at", MVal.time 110)]) (by simp)

/-- C5 amended: when auto-classification routes the record to a
category whose routing entry is `(long, no TTL)`, the caller gave no
TTL, **and no default TTL is configured** (`default_ttl_seconds` unset
or 0) and no `expires_at` arrives through caller metadata or partition
defaults, the persisted record has no `expires_at` key.  (The original
claim fails when `default_ttl_seconds` is configured, see the
counterexample: both `add_memory` and the adapter fall back to it for
long-tier records.) -/
theorem C5_long_route_no_expires (mgr : ManagerM) (pd : Md)
    (hashf : String → String) (be : Backend) (now : Int) (text : String)
    (tags : List PBase) (tier : String) (extra : Md)
    (cf : String → ClassifyResult)
    (hcls : mgr.auto_classification_enabled = true)
    (hcf : mgr.classifierFn = some cf)
    (hroute : lookupRoute mgr.category_routing (cf text).category =
      some { tier := some "long", ttl_seconds := Option.none })
    (hdef : intTruthy mgr.default_ttl_seconds = false)
    (hextra : extra.hasKey "expires_at" = false)
    (hpd : pd.hasKey "expires_at" = false) :
    ∀ docs ids, addMemory mgr pd hashf be now text tags tier Option.none extra
        = .ok (docs, ids) →
      ∀ d ∈ docs, d.metadata.hasKey "expires_at" = false := by
  intro docs ids hadd d hd
  unfold addMemory at hadd
  cases hp : addMemoryPayload mgr text tags tier Option.none extra with
  | error e => rw [hp] at hadd; cases hadd
  | ok payload =>
    rw [hp] at hadd
    dsimp only at hadd
    unfold addMemoryPayload at hp
    cases ha : assignEntity mgr extra (extractedOf mgr text) with
    | error e => rw [ha] at hp; cases hp
    | ok md1 =>
      rw [ha] at hp
      simp only [Except.map] at hp
      injection hp with hp1
      have hca : classifyAdjust mgr text tags tier Option.none md1 =
          ((md1.set "priority" (.base (.f (cf text).priority))).set "category"
            (.str (cf text).category),
           tags ++ (cf text).tags.filter (fun t => ¬ tags.contains t),
           "long", Option.none) := by
        unfold classifyAdjust
        rw [hcls, if_pos rfl, hcf]
        dsimp only
        rw [hroute]
        dsimp only
        rw [if_neg (by simp), if_neg (by rw [hdef]; exact Bool.false_ne_true)]
      have hpay : payload =
          { text := some text,
            metadata := (md1.set "priority" (.base (.f (cf text).priority))).set "category" (.str (cf text).category),
            tags := some (.list (tags ++ (cf text).tags.filter (fun t => ¬ tags.contains t))),
            tier := some "long", ttl_seconds := Option.none } := by
        rw [← hp1]
        unfold payloadOfMd
        rw [hca]
      have hmd1 : md1.hasKey "expires_at" = false := by
        rw [assignEntity_hasKey mgr extra md1 (extractedOf mgr text) "expires_at" ha
          (by decide) (by decide) (by decide) (by decide) (by decide) (by decide)
          (by decide)]
        exact hextra
      have h1 := addDocs_singleton (managerAdapterCfg mgr pd hashf) now payload
        Option.none [] docs
        (adapterAdd_ok_docs (managerAdapterCfg mgr pd hashf) be now [payload]
          Option.none [] docs ids hadd) d hd
      obtain ⟨t2, heff2, hne2, hpc2, hmd2⟩ := processItem_ok_some
        (managerAdapterCfg mgr pd hashf) now Option.none [] payload d h1
      have hrt : resolveTtl (managerAdapterCfg mgr pd hashf) payload = Option.none := by
        unfold resolveTtl
        rw [hpay]
        dsimp only
        rw [if_neg (by simp), if_neg (by
          show ¬ intTruthy (managerAdapterCfg mgr pd hashf).defaultTtlSeconds = true
          unfold managerAdapterCfg
          dsimp only
          rw [hdef]
          exact Bool.false_ne_true)]
      rw [hmd2, hrt]
      unfold withExpiry
      rw [if_neg (by simp [intTruthy])]
      rw [baseMd_hasKey_of_ne (managerAdapterCfg mgr pd hashf) now Option.none []
        payload t2 "expires_at" (by decide) (by decide) (by decide) (by decide)
        (by decide) (by decide) (by decide)]
      rw [hpay]
      dsimp only
      rw [md_hasKey_set, md_hasKey_set, hmd1]
      have hpdm : (managerAdapterCfg mgr pd hashf).partitionDefaults.hasKey
          "expires_at" = false := hpd
      rw [hpdm]
      simp [Md.hasKey]

/-- C5 witness: with no default TTL configured, the preference record
routed to the long tier is persisted without any `expires_at` key. -/
theorem C5_long_route_no_expires_witness :
    (Doc.mk "I like apples"
      [("priority", MVal.base (PBase.f (1/2))),
       ("category", MVal.str "preference"),
       ("tags", MVal.list []),
       ("timestamp", MVal.time 100),
       ("content_hash", MVal.str "I like apples"),
       ("tier", MVal.str "long")]).metadata.hasKey "expires_at" = false :=
  C5_long_route_no_expires mgrPrefLongNoTtl [] idHash {} 100 "I like apples"
    [] "long" [] (fun _ => ⟨"preference", [], 1/2, "long", Option.none⟩)
    rfl rfl rfl rfl rfl rfl
    [Doc.mk "I like apples"
      [("priority", MVal.base (PBase.f (1/2))),
       ("category", MVal.str "preference"),
       ("tags", MVal.list []),
       ("timestamp", MVal.time 100),
       ("content_hash", MVal.str "I like apples"),
       ("tier", MVal.str "long")]] [""] rfl
    (Doc.mk "I like apples"
      [("priority", MVal.base (PBase.f (1/2))),
       ("category", MVal.str "preference"),
       ("tags", MVal.list []),
       ("timestamp", MVal.time 100),
       ("content_hash", MVal.str "I like apples"),
       ("tier", MVal.str "long")]) (by simp)

theorem mem_map_toResult_none (cands : List (Doc × Rat)) :
    ∀ r ∈ cands.map toResult, r.rerank_score = Option.none := by
  intro r hr
  obtain ⟨p, _, rfl⟩ := List.mem_map.mp hr
  rfl

theorem pairs_map_eq (q : String) (cands : List (Doc × Rat)) :
    (cands.map toResult).map (fun (r : SearchResult) => (q, r.text)) =
      cands.map (fun p => (q, p.1.page_content)) := by
  rw [List.map_map]
  rfl

theorem search_rerank_error_eq (f : Reranker) (q : String) (K : Nat)
    (cands : List (Doc × Rat)) (hne : cands ≠ [])
    (hbad : (f (cands.map (fun p => (q, p.1.page_content)))).isOk = false) :
    searchFromCandidates (some f) q K true cands = (cands.map toResult).take K := by
  unfold searchFromCandidates
  dsimp only
  rw [if_pos ⟨rfl, by simpa using hne⟩]
  rw [pairs_map_eq]
  cases hf2 : f (cands.map (fun p => (q, p.1.page_content))) with
  | ok scores => rw [hf2] at hbad; cases hbad
  | error e => rfl

/-- C2 counterexample: a raising reranker with backend candidates in
ascending score order: the returned list is not sorted descending by
the claim's key (`rerank_score` if present, else `score`), refuting the
claim's universal sortedness. -/
theorem C2_counterexample :
    descBy claimKey (searchFromCandidates (some rrFail) "q" 2 true candsAsc)
      = false := by
  rfl

/-- C2 amended: the length bound `≤ K` holds unconditionally; the
results are sorted descending by the claim's key whenever reranking is
skipped (`rerank=false`, no reranker, or no candidates) or runs
successfully with at least one score per candidate; when the reranker
raises, the backend's candidate order is returned unchanged (truncated
to `K`), so the claim's sortedness can fail there. -/
theorem C2_search_bound_and_order (rk : Option Reranker) (q : String)
    (K : Nat) (rerank : Bool) (cands : List (Doc × Rat)) :
    (searchFromCandidates rk q K rerank cands).length ≤ K
    ∧ ((rerank = false ∨ rk = Option.none ∨ cands = []) →
        descBy claimKey (searchFromCandidates rk q K rerank cands) = true)
    ∧ (∀ f scores, rk = some f → rerank = true → cands ≠ [] →
        f (cands.map (fun p => (q, p.1.page_content))) = .ok scores →
        cands.length ≤ scores.length →
        descBy claimKey (searchFromCandidates rk q K rerank cands) = true)
    ∧ (∀ f, rk = some f → rerank = true → cands ≠ [] →
        (f (cands.map (fun p => (q, p.1.page_content)))).isOk = false →
        searchFromCandidates rk q K rerank cands = (cands.map toResult).take K) := by
  refine ⟨?_, ?_, ?_, ?_⟩
  · simp only [searchFromCandidates]
    exact List.length_take_le _ _
  · intro hsk
    unfold searchFromCandidates
    dsimp only
    cases rk with
    | none => exact descBy_sortByScore_take _ K (mem_map_toResult_none cands)
    | some f =>
      dsimp only
      rcases hsk with rfl | hrk | rfl
      · rw [if_neg (by simp)]
        exact descBy_sortByScore_take _ K (mem_map_toResult_none cands)
      · cases hrk
      · rw [if_neg (by simp)]
        exact descBy_sortByScore_take _ K (mem_map_toResult_none _)
  · intro f scores hrk hrr hne hok hlen
    subst hrk
    subst hrr
    unfold searchFromCandidates
    dsimp only
    rw [if_pos ⟨rfl, by simpa using hne⟩]
    rw [pairs_map_eq, hok]
    dsimp only
    refine descBy_sortRerank_take _ K ?_
    apply assignRerank_isSome
    rw [List.length_map]
    exact hlen
  · intro f hrk hrr hne hbad
    subst hrk
    subst hrr
    exact search_rerank_error_eq f q K cands hne hbad

/-- C2 witness: a successful rerank run over two candidates is sorted
descending by rerank score. -/
theorem C2_search_bound_and_order_witness :
    descBy claimKey (searchFromCandidates (some rrDemo) "q" 5 true candsAsc)
      = true :=
  (C2_search_bound_and_order (some rrDemo) "q" 5 true candsAsc).2.2.1
    rrDemo [1, 5] rfl rfl (by decide) rfl (by decide)

/-- C3 counterexample: with a raising reranker and backend candidates
in ascending score order, the returned list is not in descending
vector-score order: `search` does not re-sort on reranker failure. -/
theorem C3_counterexample :
    descBy (fun r => r.score)
      (searchFromCandidates (some rrFail) "q" 5 true candsAsc2) = false := by
  rfl

/-- C3 amended: when the reranker's `predict` raises, `search`
propagates no exception and returns the backend's candidates in their
original order, truncated to `top_k`, with no `rerank_score` set; it
does not re-sort by vector score (the warning log is outside the
model). -/
theorem C3_rerank_failure_preserves_backend_order (f : Reranker)
    (q : String) (K : Nat) (cands : List (Doc × Rat)) (hne : cands ≠ [])
    (hbad : (f (cands.map (fun p => (q, p.1.page_content)))).isOk = false) :
    searchFromCandidates (some f) q K true cands = (cands.map toResult).take K
    ∧ ∀ r ∈ searchFromCandidates (some f) q K true cands,
        r.rerank_score = Option.none := by
  have h1 := search_rerank_error_eq f q K cands hne hbad
  refine ⟨h1, ?_⟩
  intro r hr
  rw [h1] at hr
  exact mem_map_toResult_none cands r (List.take_subset K _ hr)

/-- C3 witness: a concrete raising reranker returns the two candidates
in backend order. -/
theorem C3_rerank_failure_preserves_backend_order_witness :
    searchFromCandidates (some rrFail) "q" 3 true candsAsc2 =
      (candsAsc2.map toResult).take 3 :=
  (C3_rerank_failure_preserves_backend_order rrFail "q" 3 candsAsc2
    (by decide) rfl).1

end Mem0
